import Mathlib

/-!
Shallow embedding of the markdown toolbar transform engine from
`src/components/MarkdownEditor.tsx`: the transform catalog, the
undo/redo history, and the typed-edit coalescing policy.

Text buffers are modeled as `List Char` (one element per UTF-16 code
unit of the JS string); offsets are list indices.  JS arrays used as
stacks push/pop at the END; we model a stack as a Lean list with the
TOP AT THE HEAD, so JS `arr.slice(-50)` (keep the 50 newest) becomes
`List.take 50`, JS `push` becomes cons, and popping the last JS
element becomes pattern-matching on the head.
-/

namespace AdminKB

/-- JS `s.substring(a, b)` for `a ≤ b` (the only way it is called here):
the code units from index `a` (inclusive) to `b` (exclusive), with
out-of-range indices clamped. -/
def substring (xs : List Char) (a b : Nat) : List Char :=
  (xs.drop a).take (b - a)

/-- JS `s.substring(a)`: the code units from index `a` to the end. -/
def substringFrom (xs : List Char) (a : Nat) : List Char :=
  xs.drop a

/-- Output of a toolbar transform (`TransformFn` return type in the source). -/
structure TransformResult where
  newText : List Char
  newSelectionStart : Nat
  newSelectionEnd : Nat
deriving DecidableEq, Repr

/-- The `TransformFn` signature: `(selectedText, fullText, start, end)`. -/
abbrev TransformFn := List Char → List Char → Nat → Nat → TransformResult

/-- JS `line.trimStart()`: drop leading whitespace code units. -/
def trimStart (line : List Char) : List Char :=
  line.dropWhile fun c => c.isWhitespace

namespace transforms

/-- `transforms.h1`: prefix every line of the selection with `# `. -/
def h1 : TransformFn := fun sel full start end_ =>
  let lines := (sel.splitOn '\n').map fun line => "# ".data ++ line
  let newSel := List.intercalate ['\n'] lines
  let newText := substring full 0 start ++ newSel ++ substringFrom full end_
  ⟨newText, start, start + newSel.length⟩

/-- `transforms.h2`: prefix every line of the selection with `## `. -/
def h2 : TransformFn := fun sel full start end_ =>
  let lines := (sel.splitOn '\n').map fun line => "## ".data ++ line
  let newSel := List.intercalate ['\n'] lines
  let newText := substring full 0 start ++ newSel ++ substringFrom full end_
  ⟨newText, start, start + newSel.length⟩

/-- `transforms.h3`: prefix every line of the selection with `### `. -/
def h3 : TransformFn := fun sel full start end_ =>
  let lines := (sel.splitOn '\n').map fun line => "### ".data ++ line
  let newSel := List.intercalate ['\n'] lines
  let newText := substring full 0 start ++ newSel ++ substringFrom full end_
  ⟨newText, start, start + newSel.length⟩

/-- `transforms.bold`: wrap the selection in `**…**`. -/
def bold : TransformFn := fun sel full start end_ =>
  let newSel := "**".data ++ sel ++ "**".data
  let newText := substring full 0 start ++ newSel ++ substringFrom full end_
  ⟨newText, start + 2, start + 2 + sel.length⟩

/-- `transforms.italic`: wrap the selection in `*…*`. -/
def italic : TransformFn := fun sel full start end_ =>
  let newSel := "*".data ++ sel ++ "*".data
  let newText := substring full 0 start ++ newSel ++ substringFrom full end_
  ⟨newText, start + 1, start + 1 + sel.length⟩

/-- `transforms.code`: wrap the selection in backticks. -/
def code : TransformFn := fun sel full start end_ =>
  let newSel := "`".data ++ sel ++ "`".data
  let newText := substring full 0 start ++ newSel ++ substringFrom full end_
  ⟨newText, start + 1, start + 1 + sel.length⟩

/-- `transforms.bullets`: prefix each line with `- ` unless, after
`trimStart`, it already starts with `- `. -/
def bullets : TransformFn := fun sel full start end_ =>
  let lines := (sel.splitOn '\n').map fun line =>
    if "- ".data.isPrefixOf (trimStart line) then line else "- ".data ++ line
  let newSel := List.intercalate ['\n'] lines
  let newText := substring full 0 start ++ newSel ++ substringFrom full end_
  ⟨newText, start, start + newSel.length⟩

/-- `transforms.numbered`: prefix line `i` (0-based) with `(i+1). `. -/
def numbered : TransformFn := fun sel full start end_ =>
  let lines := (sel.splitOn '\n').mapIdx fun i line =>
    Nat.toDigits 10 (i + 1) ++ ". ".data ++ line
  let newSel := List.intercalate ['\n'] lines
  let newText := substring full 0 start ++ newSel ++ substringFrom full end_
  ⟨newText, start, start + newSel.length⟩

/-- `transforms.quote`: prefix every line of the selection with `> `. -/
def quote : TransformFn := fun sel full start end_ =>
  let lines := (sel.splitOn '\n').map fun line => "> ".data ++ line
  let newSel := List.intercalate ['\n'] lines
  let newText := substring full 0 start ++ newSel ++ substringFrom full end_
  ⟨newText, start, start + newSel.length⟩

/-- `transforms.link`: wrap as `[sel](https://)`; selection lands on the
URL placeholder. -/
def link : TransformFn := fun sel full start end_ =>
  let newSel := "[".data ++ sel ++ "](https://)".data
  let newText := substring full 0 start ++ newSel ++ substringFrom full end_
  ⟨newText, start + sel.length + 3, start + newSel.length - 1⟩

/-- `transforms.image`: wrap as `![sel](https://)`; selection lands on the
URL placeholder. -/
def image : TransformFn := fun sel full start end_ =>
  let newSel := "![".data ++ sel ++ "](https://)".data
  let newText := substring full 0 start ++ newSel ++ substringFrom full end_
  ⟨newText, start + sel.length + 4, start + newSel.length - 1⟩

/-- `transforms.codeblock`: wrap in a fenced code block. -/
def codeblock : TransformFn := fun sel full start end_ =>
  let newSel := "```\n".data ++ sel ++ "\n```".data
  let newText := substring full 0 start ++ newSel ++ substringFrom full end_
  ⟨newText, start + 4, start + 4 + sel.length⟩

/-- `transforms.table`: insert the fixed 2-column template with the
selection seeded into the first data cell.  The source hard-codes the
offset 34 for the new selection start. -/
def table : TransformFn := fun sel full start end_ =>
  let newSel := "| Column 1 | Column 2 |\n|---|---|\n| ".data ++ sel ++ " |  |".data
  let newText := substring full 0 start ++ newSel ++ substringFrom full end_
  ⟨newText, start + 34, start + 34 + sel.length⟩

/-- `transforms.hr`: replace the selection with a horizontal rule. -/
def hr : TransformFn := fun sel full start end_ =>
  let newSel := "\n---\n".data
  let newText := substring full 0 start ++ newSel ++ substringFrom full end_
  ⟨newText, start, start + newSel.length⟩

end transforms

/-- The operation catalog, in source order (`transforms` record keys). -/
def catalog : List (String × TransformFn) :=
  [("h1", transforms.h1), ("h2", transforms.h2), ("h3", transforms.h3),
   ("bold", transforms.bold), ("italic", transforms.italic),
   ("code", transforms.code), ("bullets", transforms.bullets),
   ("numbered", transforms.numbered), ("quote", transforms.quote),
   ("link", transforms.link), ("image", transforms.image),
   ("codeblock", transforms.codeblock), ("table", transforms.table),
   ("hr", transforms.hr)]

/-- `HistoryState`: the two snapshot stacks (top at the head here;
the JS arrays keep the top at the end). -/
structure HistoryState where
  undoStack : List (List Char)
  redoStack : List (List Char)
deriving DecidableEq, Repr

/-- The editor state the claims range over: the controlled `value`, the
history, and the `lastValueRef` used by typed-edit coalescing. -/
structure EditorState where
  value : List Char
  history : HistoryState
  lastValueRef : List Char
deriving DecidableEq, Repr

/-- `pushToUndo`: JS `undoStack: [...prev.undoStack.slice(-50), prevValue],
redoStack: []`.  With top-at-head stacks, `slice(-50)` is `take 50` and the
push is a cons. -/
def pushToUndo (prev : HistoryState) (prevValue : List Char) : HistoryState :=
  ⟨prevValue :: prev.undoStack.take 50, []⟩

/-- `applyTransform`: no-op when the selection is empty, otherwise push the
current value onto the undo stack and replace the value with the
transform result. -/
def applyTransform (s : EditorState) (transformFn : TransformFn)
    (start end_ : Nat) : EditorState :=
  if start = end_ then s
  else
    let selectedText := substring s.value start end_
    let result := transformFn selectedText s.value start end_
    ⟨result.newText, pushToUndo s.history s.value, s.lastValueRef⟩

/-- The `undo` branch of `handleToolbarClick`: no-op on an empty stack,
otherwise pop the newest snapshot, push the current value onto the redo
stack, and restore the snapshot. -/
def undo (s : EditorState) : EditorState :=
  match s.history.undoStack with
  | [] => s
  | prevValue :: rest =>
    ⟨prevValue, ⟨rest, s.value :: s.history.redoStack⟩, s.lastValueRef⟩

/-- The `redo` branch of `handleToolbarClick`: no-op on an empty stack,
otherwise pop the redo stack, push the current value onto the undo stack
(without any cap — the source does not slice here), and restore. -/
def redo (s : EditorState) : EditorState :=
  match s.history.redoStack with
  | [] => s
  | nextValue :: rest =>
    ⟨nextValue, ⟨s.value :: s.history.undoStack, rest⟩, s.lastValueRef⟩

/-- `handleChange`: typed-edit tracking.  Pushes `lastValueRef` onto the
undo stack only when the value changed and either the length delta
exceeds 10 or the undo stack is empty. -/
def handleChange (s : EditorState) (newValue : List Char) : EditorState :=
  if s.lastValueRef ≠ newValue then
    if ((newValue.length : Int) - (s.lastValueRef.length : Int)).natAbs > 10
        ∨ s.history.undoStack = [] then
      ⟨newValue, pushToUndo s.history s.lastValueRef, newValue⟩
    else
      ⟨newValue, s.history, newValue⟩
  else
    ⟨newValue, s.history, s.lastValueRef⟩

/-- Editor state at mount: empty history, `lastValueRef` initialized to
the initial value. -/
def initState (b0 : List Char) : EditorState := ⟨b0, ⟨[], []⟩, b0⟩

/-- One toolbar edit request: a transform together with the selection it
is invoked on. -/
structure Edit where
  tf : TransformFn
  start : Nat
  end_ : Nat

/-- Apply one toolbar edit. -/
def applyEdit (s : EditorState) (e : Edit) : EditorState :=
  applyTransform s e.tf e.start e.end_

/-- Apply a sequence of toolbar edits, left to right. -/
def applyEdits (s : EditorState) (edits : List Edit) : EditorState :=
  edits.foldl applyEdit s

/-- Click undo `n` times. -/
def undoN : Nat → EditorState → EditorState
  | 0, s => s
  | n + 1, s => undoN n (undo s)

/-- Click redo `n` times. -/
def redoN : Nat → EditorState → EditorState
  | 0, s => s
  | n + 1, s => redoN n (redo s)

/-- Feed a sequence of typed values through `handleChange`. -/
def handleChanges (s : EditorState) (vs : List (List Char)) : EditorState :=
  vs.foldl handleChange s

/-- `Bool` predicate: every step of the typed sequence changes the length
by at most 10 relative to the previous value. -/
def smallSteps : List Char → List (List Char) → Bool
  | _, [] => true
  | v, n :: ns =>
    (((n.length : Int) - (v.length : Int)).natAbs ≤ 10) && smallSteps n ns

/-- The value a successful edit produces, as a pure function of the
current value. -/
def runVal (v : List Char) (e : Edit) : List Char :=
  (e.tf (substring v e.start e.end_) v e.start e.end_).newText

/-- The snapshots a sequence of successful edits pushes, oldest first. -/
def pushedVals (v : List Char) : List Edit → List (List Char)
  | [] => []
  | e :: es => v :: pushedVals (runVal v e) es

/-- The value after a sequence of successful edits. -/
def runVals (v : List Char) (edits : List Edit) : List Char :=
  edits.foldl runVal v

/-! ### Helper lemmas -/

lemma undo_stack_empty (s : EditorState) (h : s.history.undoStack = []) :
    undo s = s := by
  unfold undo
  rw [h]

lemma redo_stack_empty (s : EditorState) (h : s.history.redoStack = []) :
    redo s = s := by
  unfold redo
  rw [h]

lemma applyTransform_of_ne (s : EditorState) (tf : TransformFn)
    (start end_ : Nat) (h : start ≠ end_) :
    applyTransform s tf start end_ =
      ⟨(tf (substring s.value start end_) s.value start end_).newText,
        pushToUndo s.history s.value, s.lastValueRef⟩ := by
  simp [applyTransform, h]

lemma undo_run (us : List (List Char)) :
    ∀ (b0 v : List Char) (rs : List (List Char)) (lr : List Char),
      undoN (us.length + 1) ⟨v, ⟨us ++ [b0], rs⟩, lr⟩ =
        ⟨b0, ⟨[], us.reverse ++ v :: rs⟩, lr⟩ := by
  induction us with
  | nil => intro b0 v rs lr; simp [undoN, undo]
  | cons u us ih =>
    intro b0 v rs lr
    show undoN (us.length + 1 + 1) _ = _
    rw [undoN]
    have hu : undo (⟨v, ⟨u :: us ++ [b0], rs⟩, lr⟩ : EditorState) =
        ⟨u, ⟨us ++ [b0], v :: rs⟩, lr⟩ := rfl
    rw [hu, ih]
    simp

lemma redo_run (rs : List (List Char)) :
    ∀ (r0 v : List Char) (us : List (List Char)) (lr : List Char),
      redoN (rs.length + 1) ⟨v, ⟨us, rs ++ [r0]⟩, lr⟩ =
        ⟨r0, ⟨rs.reverse ++ v :: us, []⟩, lr⟩ := by
  induction rs with
  | nil => intro r0 v us lr; simp [redoN, redo]
  | cons r rs ih =>
    intro r0 v us lr
    show redoN (rs.length + 1 + 1) _ = _
    rw [redoN]
    have hr : redo (⟨v, ⟨us, r :: rs ++ [r0]⟩, lr⟩ : EditorState) =
        ⟨r, ⟨v :: us, rs ++ [r0]⟩, lr⟩ := rfl
    rw [hr, ih]
    simp

lemma pushedVals_length (edits : List Edit) :
    ∀ v, (pushedVals v edits).length = edits.length := by
  induction edits with
  | nil => intro v; rfl
  | cons e es ih => intro v; simp [pushedVals, ih]

lemma applyEdits_run (edits : List Edit) :
    ∀ (v : List Char) (us rs : List (List Char)) (lr : List Char),
      (∀ e ∈ edits, e.start ≠ e.end_) → us.length + edits.length ≤ 51 →
      applyEdits ⟨v, ⟨us, rs⟩, lr⟩ edits =
        ⟨runVals v edits,
          ⟨(pushedVals v edits).reverse ++ us, if edits.isEmpty then rs else []⟩,
          lr⟩ := by
  induction edits with
  | nil => intro v us rs lr _ _; simp [applyEdits, runVals, pushedVals]
  | cons e es ih =>
    intro v us rs lr hsucc hlen
    have htake : us.take 50 = us := by
      apply List.take_of_length_le
      simp at hlen
      omega
    have hstep : applyEdit (⟨v, ⟨us, rs⟩, lr⟩ : EditorState) e =
        ⟨runVal v e, ⟨v :: us, []⟩, lr⟩ := by
      rw [applyEdit, applyTransform_of_ne _ _ _ _ (hsucc e (by simp))]
      simp [pushToUndo, runVal, htake]
    show applyEdits (applyEdit _ e) es = _
    rw [hstep, ih (runVal v e) (v :: us) [] lr
      (fun x hx => hsucc x (by simp [hx])) (by simp at hlen ⊢; omega)]
    simp [runVals, pushedVals]

lemma applyEdits_stack_le (edits : List Edit) :
    ∀ s : EditorState, s.history.undoStack.length ≤ 51 →
      (applyEdits s edits).history.undoStack.length ≤ 51 := by
  induction edits with
  | nil => intro s h; exact h
  | cons e es ih =>
    intro s h
    show (applyEdits (applyEdit s e) es).history.undoStack.length ≤ 51
    apply ih
    by_cases he : e.start = e.end_
    · simp [applyEdit, applyTransform, he, h]
    · rw [applyEdit, applyTransform_of_ne _ _ _ _ he]
      have := List.length_take_le 50 s.history.undoStack
      simp only [pushToUndo, List.length_cons]
      omega

lemma undoN_stack_le (n : Nat) :
    ∀ s : EditorState, s.history.undoStack.length ≤ n →
      (undoN n s).history.undoStack = [] := by
  induction n with
  | zero =>
    intro s h
    exact List.eq_nil_of_length_eq_zero (Nat.le_zero.mp h)
  | succ n ih =>
    intro s h
    rw [undoN]
    cases hs : s.history.undoStack with
    | nil =>
      rw [undo_stack_empty s hs]
      exact ih s (by rw [hs]; simp)
    | cons p rest =>
      have hu : undo s = ⟨p, ⟨rest, s.value :: s.history.redoStack⟩, s.lastValueRef⟩ := by
        unfold undo; rw [hs]
      apply ih
      rw [hu]
      rw [hs] at h
      simpa using Nat.le_of_succ_le_succ (by simpa using h)

lemma substring_zero_length (full : List Char) (start : Nat)
    (h : start ≤ full.length) : (substring full 0 start).length = start := by
  simp [substring]
  omega

lemma substring_append_mid (p mid q : List Char) (a b : Nat)
    (ha : a = p.length) (hb : b = p.length + mid.length) :
    substring (p ++ (mid ++ q)) a b = mid := by
  subst ha; subst hb
  simp [substring, Nat.add_sub_cancel_left, List.drop_left, List.take_left]

/-! ### Claim theorems -/

/-- C1, counterexample: 52 successful bold transforms starting from buffer
`"a"`, then 52 undo clicks, do NOT restore `"a"` (the cap trimmed the
oldest snapshot away), refuting the unbounded round-trip claim. -/
theorem undo_roundtrip_counterexample :
    (undoN 52 (applyEdits (initState "a".data)
      (List.replicate 52 ⟨transforms.bold, 0, 1⟩))).value ≠ "a".data := by
  decide

/-- C2, counterexample: 51 successful transforms leave 51 entries on the
undo stack, refuting the 50-entry cap. -/
theorem undoStack_exceeds_50 :
    50 < (applyEdits (initState "a".data)
      (List.replicate 51 ⟨transforms.bold, 0, 1⟩)).history.undoStack.length := by
  decide

/-- C3: for every operation in the catalog, invoking it with an empty
selection (`start = end`) leaves the whole editor state — buffer, undo
stack and redo stack — unchanged. -/
theorem empty_selection_noop (op : String × TransformFn) (hop : op ∈ catalog)
    (s : EditorState) (start end_ : Nat) (h : start = end_) :
    applyTransform s op.2 start end_ = s := by
  simp [applyTransform, h]

/-- Witness for C3 at the `h1` operation on a concrete state. -/
theorem empty_selection_noop_witness :
    applyTransform (initState "ab".data) ("h1", transforms.h1).2 1 1 =
      initState "ab".data :=
  empty_selection_noop ("h1", transforms.h1) (by simp [catalog])
    (initState "ab".data) 1 1 rfl

/-- C4, code bug: on buffer `"text"` with the whole text selected, the
table transform sets the selection to offsets 34–38 of the new buffer,
which covers `"| te"`; the seeded cell content `"text"` actually sits at
offsets 36–40 (the template prefix is 36 characters long, not 34). -/
theorem table_selection_misses_seeded_cell :
    (transforms.table "text".data "text".data 0 4).newSelectionStart = 34 ∧
    (transforms.table "text".data "text".data 0 4).newSelectionEnd = 38 ∧
    substring (transforms.table "text".data "text".data 0 4).newText 34 38 =
      "| te".data ∧
    substring (transforms.table "text".data "text".data 0 4).newText 36 40 =
      "text".data := by
  decide

/-- C1, amended: for at most 51 successful transforms applied to a fresh
editor on buffer `b0`, undoing once per transform restores `b0` exactly,
and redoing once per transform then restores the final buffer. -/
theorem undo_redo_roundtrip_le_51 (b0 : List Char) (edits : List Edit)
    (hsucc : ∀ e ∈ edits, e.start ≠ e.end_) (hlen : edits.length ≤ 51) :
    (undoN edits.length (applyEdits (initState b0) edits)).value = b0 ∧
    (redoN edits.length (undoN edits.length (applyEdits (initState b0) edits))).value
      = (applyEdits (initState b0) edits).value := by
  cases edits with
  | nil => exact ⟨rfl, rfl⟩
  | cons e es =>
    have h0 : initState b0 = (⟨b0, ⟨[], []⟩, b0⟩ : EditorState) := rfl
    have hrun := applyEdits_run (e :: es) b0 [] [] b0 hsucc (by simpa using hlen)
    rw [h0, hrun]
    have hpv : pushedVals b0 (e :: es) = b0 :: pushedVals (runVal b0 e) es := rfl
    have hstack : (pushedVals b0 (e :: es)).reverse ++ ([] : List (List Char)) =
        (pushedVals (runVal b0 e) es).reverse ++ [b0] := by
      simp [hpv]
    have hempty : (if (e :: es).isEmpty then ([] : List (List Char)) else []) = [] := by
      simp
    rw [hstack, hempty]
    have hcount : (e :: es).length =
        ((pushedVals (runVal b0 e) es).reverse).length + 1 := by
      simp [pushedVals_length]
    rw [hcount, undo_run]
    refine ⟨rfl, ?_⟩
    rw [← List.length_reverse ((pushedVals (runVal b0 e) es).reverse), redo_run]

/-- Witness for C1 amended: two successful transforms on buffer `"ab"`. -/
theorem undo_redo_roundtrip_le_51_witness :
    (undoN (List.length [(⟨transforms.bold, 0, 1⟩ : Edit), ⟨transforms.link, 0, 2⟩])
      (applyEdits (initState "ab".data)
        [⟨transforms.bold, 0, 1⟩, ⟨transforms.link, 0, 2⟩])).value = "ab".data ∧
    (redoN (List.length [(⟨transforms.bold, 0, 1⟩ : Edit), ⟨transforms.link, 0, 2⟩])
      (undoN (List.length [(⟨transforms.bold, 0, 1⟩ : Edit), ⟨transforms.link, 0, 2⟩])
        (applyEdits (initState "ab".data)
          [⟨transforms.bold, 0, 1⟩, ⟨transforms.link, 0, 2⟩]))).value
      = (applyEdits (initState "ab".data)
          [⟨transforms.bold, 0, 1⟩, ⟨transforms.link, 0, 2⟩]).value :=
  undo_redo_roundtrip_le_51 "ab".data
    [⟨transforms.bold, 0, 1⟩, ⟨transforms.link, 0, 2⟩] (by decide) (by decide)

/-- C2, amended: the undo stack is bounded by 51 entries (the source keeps
the 50 newest and then appends one more), and after any sequence of
toolbar edits a 52nd undo click is a no-op: 51 undos already drain the
stack. -/
theorem undoStack_bounded_51 (b0 : List Char) (edits : List Edit) :
    (applyEdits (initState b0) edits).history.undoStack.length ≤ 51 ∧
    undo (undoN 51 (applyEdits (initState b0) edits)) =
      undoN 51 (applyEdits (initState b0) edits) := by
  have h1 := applyEdits_stack_le edits (initState b0) (by simp [initState])
  exact ⟨h1, undo_stack_empty _ (undoN_stack_le 51 _ h1)⟩

/-- C6: a successful transform clears the redo stack, a typed-edit push
clears the redo stack, and redo after an undo followed by a successful
transform is a no-op. -/
theorem redo_invalidation (s : EditorState) (tf : TransformFn)
    (start end_ : Nat) (newValue : List Char) (h : start ≠ end_) :
    (applyTransform s tf start end_).history.redoStack = [] ∧
    (s.lastValueRef ≠ newValue ∧
        (((newValue.length : Int) - (s.lastValueRef.length : Int)).natAbs > 10 ∨
          s.history.undoStack = []) →
      (handleChange s newValue).history.redoStack = []) ∧
    redo (applyTransform (undo s) tf start end_) =
      applyTransform (undo s) tf start end_ := by
  refine ⟨?_, ?_, ?_⟩
  · rw [applyTransform_of_ne _ _ _ _ h]; rfl
  · rintro ⟨h1, h2⟩
    simp only [handleChange]
    rw [if_pos h1, if_pos h2]
    rfl
  · apply redo_stack_empty
    rw [applyTransform_of_ne _ _ _ _ h]
    rfl

/-- Witness for C6 on a concrete state with non-empty stacks. -/
theorem redo_invalidation_witness :
    (applyTransform ⟨"abc".data, ⟨["x".data], ["y".data]⟩, "abc".data⟩
      transforms.bold 0 1).history.redoStack = [] ∧
    ((⟨"abc".data, ⟨["x".data], ["y".data]⟩, "abc".data⟩ : EditorState).lastValueRef ≠
        "abcdefghijklmn".data ∧
        ((("abcdefghijklmn".data.length : Int) -
            ((⟨"abc".data, ⟨["x".data], ["y".data]⟩, "abc".data⟩ : EditorState).lastValueRef.length : Int)).natAbs > 10 ∨
          (⟨"abc".data, ⟨["x".data], ["y".data]⟩, "abc".data⟩ : EditorState).history.undoStack = []) →
      (handleChange ⟨"abc".data, ⟨["x".data], ["y".data]⟩, "abc".data⟩
        "abcdefghijklmn".data).history.redoStack = []) ∧
    redo (applyTransform (undo ⟨"abc".data, ⟨["x".data], ["y".data]⟩, "abc".data⟩)
        transforms.bold 0 1) =
      applyTransform (undo ⟨"abc".data, ⟨["x".data], ["y".data]⟩, "abc".data⟩)
        transforms.bold 0 1 :=
  redo_invalidation ⟨"abc".data, ⟨["x".data], ["y".data]⟩, "abc".data⟩
    transforms.bold 0 1 "abcdefghijklmn".data (by decide)

/-- Any run of small typed edits (length delta at most 10 each) starting
from a state with a non-empty undo stack leaves the whole history
untouched. -/
lemma smallSteps_no_push (vs : List (List Char)) :
    ∀ s : EditorState, s.history.undoStack ≠ [] →
      smallSteps s.lastValueRef vs = true →
      (handleChanges s vs).history = s.history := by
  induction vs with
  | nil => intro s _ _; rfl
  | cons n ns ih =>
    intro s hne hsm
    rw [smallSteps] at hsm
    have hsm1 : ((n.length : Int) - (s.lastValueRef.length : Int)).natAbs ≤ 10 ∧
        smallSteps n ns = true := by
      simpa [Bool.and_eq_true, decide_eq_true_eq] using hsm
    show (handleChanges (handleChange s n) ns).history = s.history
    by_cases hEq : s.lastValueRef = n
    · have hstep : handleChange s n = ⟨n, s.history, s.lastValueRef⟩ := by
        simp [handleChange, hEq]
      rw [hstep]
      exact ih ⟨n, s.history, s.lastValueRef⟩ hne (by rw [hEq]; exact hsm1.2)
    · have hnotsig : ¬(((n.length : Int) - (s.lastValueRef.length : Int)).natAbs > 10 ∨
          s.history.undoStack = []) := by
        rintro (hc | hc)
        · omega
        · exact hne hc
      have hstep : handleChange s n = ⟨n, s.history, n⟩ := by
        simp only [handleChange]
        rw [if_pos hEq, if_neg hnotsig]
      rw [hstep]
      exact ih ⟨n, s.history, n⟩ hne hsm1.2

/-- C7: on a synced state with a non-empty undo stack, a sequence of typed
edits whose length deltas stay at most 10 pushes nothing onto the undo
stack, while a single typed edit with delta above 10 pushes exactly one
entry, the buffer value immediately prior to the edit. -/
theorem typed_edit_coalescing (s : EditorState) (vs : List (List Char))
    (newValue : List Char) (hsync : s.lastValueRef = s.value)
    (hne : s.history.undoStack ≠ [])
    (hsmall : smallSteps s.value vs = true)
    (hbig : ((newValue.length : Int) - (s.value.length : Int)).natAbs > 10) :
    (handleChanges s vs).history.undoStack = s.history.undoStack ∧
    (handleChange s newValue).history.undoStack =
      s.value :: s.history.undoStack.take 50 := by
  constructor
  · rw [smallSteps_no_push vs s hne (by rw [hsync]; exact hsmall)]
  · have hv : s.lastValueRef ≠ newValue := by
      intro hEq
      rw [hsync] at hEq
      rw [← hEq] at hbig
      simp at hbig
    simp only [handleChange]
    rw [if_pos hv, if_pos (Or.inl (by rw [hsync]; exact hbig))]
    simp [pushToUndo, hsync]

/-- Witness for C7: two small typed edits produce no entry; a 12-character
jump pushes the prior value. -/
theorem typed_edit_coalescing_witness :
    (handleChanges ⟨"x".data, ⟨["q".data], []⟩, "x".data⟩
      ["xy".data, "".data]).history.undoStack =
      (⟨"x".data, ⟨["q".data], []⟩, "x".data⟩ : EditorState).history.undoStack ∧
    (handleChange ⟨"x".data, ⟨["q".data], []⟩, "x".data⟩
      "abcdefghijkl".data).history.undoStack =
      (⟨"x".data, ⟨["q".data], []⟩, "x".data⟩ : EditorState).value ::
        (⟨"x".data, ⟨["q".data], []⟩, "x".data⟩ : EditorState).history.undoStack.take 50 :=
  typed_edit_coalescing ⟨"x".data, ⟨["q".data], []⟩, "x".data⟩
    ["xy".data, "".data] "abcdefghijkl".data rfl (by decide) (by decide) (by decide)

/-- C8: bold on buffer `"hello world"` with selection 6–11 yields
`"hello **world**"` with selection 8–13, which covers exactly the inner
`"world"`. -/
theorem bold_exact_wrapping :
    transforms.bold (substring "hello world".data 6 11) "hello world".data 6 11 =
      ⟨"hello **world**".data, 8, 13⟩ ∧
    substring "hello **world**".data 8 13 = "world".data := by
  decide

/-- C5: every operation in the catalog, on any valid selection, returns
selection offsets with `newSelectionStart ≤ newSelectionEnd ≤
length newText`, by the arithmetic of each operation alone. -/
theorem selection_bounds_by_construction (op : String × TransformFn)
    (hop : op ∈ catalog) (full : List Char) (start end_ : Nat)
    (hse : start ≤ end_) (hlen : end_ ≤ full.length) :
    (op.2 (substring full start end_) full start end_).newSelectionStart ≤
      (op.2 (substring full start end_) full start end_).newSelectionEnd ∧
    (op.2 (substring full start end_) full start end_).newSelectionEnd ≤
      (op.2 (substring full start end_) full start end_).newText.length := by
  have e1 : ("*".data).length = 1 := rfl
  have e2 : ("**".data).length = 2 := rfl
  have e3 : ("`".data).length = 1 := rfl
  have e4 : ("[".data).length = 1 := rfl
  have e5 : ("](https://)".data).length = 11 := rfl
  have e6 : ("![".data).length = 2 := rfl
  have e7 : ("```\n".data).length = 4 := rfl
  have e8 : ("\n```".data).length = 4 := rfl
  have e9 : ("| Column 1 | Column 2 |\n|---|---|\n| ".data).length = 36 := rfl
  have e10 : (" |  |".data).length = 5 := rfl
  simp only [catalog, List.mem_cons, List.not_mem_nil, or_false] at hop
  rcases hop with rfl|rfl|rfl|rfl|rfl|rfl|rfl|rfl|rfl|rfl|rfl|rfl|rfl|rfl <;>
    · simp [transforms.h1, transforms.h2, transforms.h3, transforms.bold,
        transforms.italic, transforms.code, transforms.bullets,
        transforms.numbered, transforms.quote, transforms.link,
        transforms.image, transforms.codeblock, transforms.table,
        transforms.hr, substring, substringFrom, e1, e2, e3, e4, e5, e6, e7,
        e8, e9, e10]
      omega

/-- Witness for C5 at the `h1` operation on buffer `"ab"`, selection 0–1. -/
theorem selection_bounds_by_construction_witness :
    (("h1", transforms.h1).2 (substring "ab".data 0 1) "ab".data 0 1).newSelectionStart ≤
      (("h1", transforms.h1).2 (substring "ab".data 0 1) "ab".data 0 1).newSelectionEnd ∧
    (("h1", transforms.h1).2 (substring "ab".data 0 1) "ab".data 0 1).newSelectionEnd ≤
      (("h1", transforms.h1).2 (substring "ab".data 0 1) "ab".data 0 1).newText.length :=
  selection_bounds_by_construction ("h1", transforms.h1) (by simp [catalog])
    "ab".data 0 1 (by decide) (by decide)

/-- C9: the link operation rewrites the selection to `[sel](https://)` in
place, and the new selection covers exactly the `https://` placeholder of
the new buffer. -/
theorem link_placeholder_selection (sel full : List Char) (start end_ : Nat)
    (hsel : sel = substring full start end_) (hne : start < end_)
    (hlen : end_ ≤ full.length) :
    (transforms.link sel full start end_).newText =
      substring full 0 start ++ ("[".data ++ sel ++ "](https://)".data) ++
        substringFrom full end_ ∧
    substring (transforms.link sel full start end_).newText
      (transforms.link sel full start end_).newSelectionStart
      (transforms.link sel full start end_).newSelectionEnd = "https://".data := by
  have hP : (substring full 0 start).length = start :=
    substring_zero_length full start (by omega)
  have ea : ("[".data).length = 1 := rfl
  have eb : ("](https://)".data).length = 11 := rfl
  have ec : ("](".data).length = 2 := rfl
  have eh : ("https://".data).length = 8 := rfl
  refine ⟨rfl, ?_⟩
  have hdec : "](https://)".data = "](".data ++ ("https://".data ++ ")".data) := rfl
  have hshape : (transforms.link sel full start end_).newText =
      (substring full 0 start ++ ("[".data ++ (sel ++ "](".data))) ++
        ("https://".data ++ (")".data ++ substringFrom full end_)) := by
    show substring full 0 start ++ ("[".data ++ sel ++ "](https://)".data) ++
        substringFrom full end_ = _
    rw [hdec]
    simp [List.append_assoc]
  have hstart : (transforms.link sel full start end_).newSelectionStart =
      (substring full 0 start ++ ("[".data ++ (sel ++ "](".data))).length := by
    show start + sel.length + 3 = _
    simp [List.length_append, hP, ea, ec]
    omega
  have hend : (transforms.link sel full start end_).newSelectionEnd =
      (substring full 0 start ++ ("[".data ++ (sel ++ "](".data))).length +
        ("https://".data).length := by
    show start + ("[".data ++ sel ++ "](https://)".data).length - 1 = _
    simp [List.length_append, hP, ea, eb, ec, eh]
    omega
  rw [hshape, hstart, hend]
  exact substring_append_mid _ _ _ _ _ rfl rfl

/-- Witness for C9 on buffer `"text"` with the whole text selected. -/
theorem link_placeholder_selection_witness :
    (transforms.link "text".data "text".data 0 4).newText =
      substring "text".data 0 0 ++ ("[".data ++ "text".data ++ "](https://)".data) ++
        substringFrom "text".data 4 ∧
    substring (transforms.link "text".data "text".data 0 4).newText
      (transforms.link "text".data "text".data 0 4).newSelectionStart
      (transforms.link "text".data "text".data 0 4).newSelectionEnd =
      "https://".data :=
  link_placeholder_selection "text".data "text".data 0 4 (by decide) (by decide)
    (by decide)

/-- C10: every operation in the catalog rewrites only the selected range:
its output buffer is the text before the selection, a replacement block,
then the text after the selection, unchanged. -/
theorem transform_frame_property (op : String × TransformFn) (hop : op ∈ catalog)
    (sel full : List Char) (start end_ : Nat) :
    ∃ repl, (op.2 sel full start end_).newText =
      substring full 0 start ++ repl ++ substringFrom full end_ := by
  simp only [catalog, List.mem_cons, List.not_mem_nil, or_false] at hop
  rcases hop with rfl|rfl|rfl|rfl|rfl|rfl|rfl|rfl|rfl|rfl|rfl|rfl|rfl|rfl <;>
    exact ⟨_, rfl⟩

/-- Witness for C10 at the `bold` operation. -/
theorem transform_frame_property_witness :
    ∃ repl, (("bold", transforms.bold).2 "x".data "xy".data 0 1).newText =
      substring "xy".data 0 0 ++ repl ++ substringFrom "xy".data 1 :=
  transform_frame_property ("bold", transforms.bold) (by simp [catalog])
    "x".data "xy".data 0 1

end AdminKB
